import Mathlib

/-!
Verification of the JALoP auditd plugin (`src/jalauditd.c`) against its
natural-language specification.  The C source is shallowly embedded:

* the glib `GQueue` guarded by `queue_mutex`, together with the globals
  `queue_max_length` and `queue_max_length_seen`, becomes the structure
  `EventQueue`;
* the enqueue path inside `audit_event_handle` (lines 164-181) and the
  dequeue path inside `send_messages_to_local_store` (lines 309-318)
  become the functions `enqueue` and `dequeue`; sequences of operations
  are interpreted by `runOps` (operations are atomic under the single
  mutex, so every interleaving of the producer and the consumer is some
  sequence of atomic operations);
* the field walk / record walk of `audit_event_handle` (lines 109-191)
  becomes `audit_event_handle`, with `goto out` rendered as an early
  return of the whole function;
* `config_load` (lines 193-242, the libconfig >= 1.4 branch) becomes
  `config_load`, with `config_lookup_int`'s leave-untouched-on-missing-key
  behaviour made explicit;
* the dispatcher loop of `send_messages_to_local_store` (lines 309-334)
  becomes `send_messages_to_local_store`;
* the nested ingestion loop of `main` (lines 373-443) becomes
  `mainOuterLoop` / `innerLoopEOF`, specialised to an input stream that
  is at end-of-file, with explicit fuel since the C loop has no bound.
-/

namespace Jalauditd

/-- Timeout constant `QUEUE_FULL_TIMEOUT` (jalauditd.c line 62): seconds an
enqueue waits on the `queue_full` condition before discarding. -/
def QUEUE_FULL_TIMEOUT : Nat := 5

/-- Run status values (lines 64-66): `RUN`, `STOP`, `RELOAD`. -/
inductive Status where
  | RUN
  | STOP
  | RELOAD
deriving DecidableEq, Repr

/-- The shared queue state: the `GQueue* event_queue` contents (head at the
front of the list), the capacity `queue_max_length`, and the high-water
mark `queue_max_length_seen` (lines 69, 76, 77). -/
structure EventQueue (α : Type) where
  items : List α
  capacity : Nat
  maxLenSeen : Nat
deriving DecidableEq, Repr

/-- Result of the enqueue attempt in `audit_event_handle`: either the event
was pushed to the tail, or the queue stayed full past the timed wait and the
event was discarded (lines 171-175). -/
inductive EnqResult where
  | Accepted
  | Discarded
deriving DecidableEq, Repr

/-- The enqueue path of `audit_event_handle` (lines 164-181), for an
observation window in which no consumer runs (operations are atomic under
`queue_mutex`): if `g_queue_get_length(event_queue) >= queue_max_length`
the producer does one `pthread_cond_timedwait` of `QUEUE_FULL_TIMEOUT`
seconds, finds the queue still full, and discards the message; otherwise it
pushes the event at the tail and raises `queue_max_length_seen` to
`MAX(g_queue_get_length(event_queue), queue_max_length_seen)`.  The second
component of the result reports how many seconds the call waited. -/
def enqueue {α : Type} (q : EventQueue α) (x : α) :
    EventQueue α × EnqResult × Nat :=
  if q.items.length ≥ q.capacity then
    (q, EnqResult.Discarded, QUEUE_FULL_TIMEOUT)
  else
    let items := q.items ++ [x]
    ({ q with items := items,
              maxLenSeen := max items.length q.maxLenSeen },
     EnqResult.Accepted, 0)

/-- The dequeue path of `send_messages_to_local_store` (lines 309-318):
while the queue is empty the consumer waits on `data_in_queue` (modelled as
leaving the state unchanged and returning no event); otherwise it pops the
head. -/
def dequeue {α : Type} (q : EventQueue α) : EventQueue α × Option α :=
  match q.items with
  | [] => (q, none)
  | x :: rest => ({ q with items := rest }, some x)

/-- One atomic queue operation: an enqueue attempt by the producer or a
dequeue by the consumer. -/
inductive Op (α : Type) where
  | enq (x : α)
  | deq
deriving Repr

/-- Interpret one operation on the queue state. -/
def step {α : Type} (q : EventQueue α) : Op α → EventQueue α
  | Op.enq x => (enqueue q x).1
  | Op.deq => (dequeue q).1

/-- Interpret a sequence of operations left to right. -/
def runOps {α : Type} (q : EventQueue α) : List (Op α) → EventQueue α
  | [] => q
  | op :: ops => runOps (step q op) ops

/-- The fresh queue built at process start (`event_queue = g_queue_new()`,
line 345) with capacity `queue_max_length` and
`queue_max_length_seen = 0` (line 77). -/
def initQueue (α : Type) (cap : Nat) : EventQueue α :=
  { items := [], capacity := cap, maxLenSeen := 0 }

/-- Fold a list of events through `enqueue`, recording each call's result
and wait time. -/
def enqueueAll {α : Type} (q : EventQueue α) :
    List α → EventQueue α × List (EnqResult × Nat)
  | [] => (q, [])
  | x :: xs =>
    let e := enqueue q x
    let t := enqueueAll e.1 xs
    (t.1, e.2 :: t.2)

/-- Instrumented interpretation of an operation sequence that also records
the events the producer got `Accepted` (in acceptance order) and the events
the consumer popped (in pop order). -/
def runTrace {α : Type} (q : EventQueue α) :
    List (Op α) → EventQueue α × List α × List α
  | [] => (q, [], [])
  | Op.enq x :: ops =>
    let e := enqueue q x
    let t := runTrace e.1 ops
    (t.1, (if e.2.1 = EnqResult.Accepted then x :: t.2.1 else t.2.1), t.2.2)
  | Op.deq :: ops =>
    let d := dequeue q
    let t := runTrace d.1 ops
    (t.1, t.2.1, d.2.toList ++ t.2.2)

/-- The queue state observed after the first `n` operations of `ops`,
starting from the fresh queue of capacity `cap`. -/
def stateAt {α : Type} (cap : Nat) (ops : List (Op α)) (n : Nat) :
    EventQueue α :=
  runOps (initQueue α cap) (ops.take n)

/-- A raw auparse record as seen by `audit_event_handle`: the ordered
`(key, value)` field pairs yielded by `auparse_get_field_name` /
`auparse_get_field_str` / `auparse_next_field`, and the record text
returned by `auparse_get_record_text`. -/
structure RawRecord where
  fields : List (String × String)
  rawText : String
deriving DecidableEq, Repr

/-- The `jalp_app_metadata` object built per record (lines 111-163):
`logger_name` is `strdup("auditd")`, the structured-data id is `"audit"`,
`param_list` holds the appended `jalp_param` pairs, and `message` is the
record text. -/
structure AppMetadata where
  logger_name : String
  sd_id : String
  param_list : List (String × String)
  message : String
deriving DecidableEq, Repr

/-- The field walk of `audit_event_handle` (lines 139-156): fields are
visited in order; if a field has key `"type"` and value `"EOE"` the walk
jumps to `out` (returning `none`: the event under construction is
destroyed); otherwise the pair is appended to the parameter list. -/
def normalizeFields : List (String × String) → Option (List (String × String))
  | [] => some []
  | (k, v) :: rest =>
    if k = "type" ∧ v = "EOE" then
      none
    else
      match normalizeFields rest with
      | none => none
      | some ps => some ((k, v) :: ps)

/-- The record walk of `audit_event_handle` (lines 109-191), processing the
records of one `AUPARSE_CB_EVENT_READY` callback in order and threading the
queue state.  `allocFails i` says whether some allocation during the
processing of the `i`-th record fails (`jalp_app_metadata_create`,
`jalp_logger_metadata_create`, `strdup` of the logger name,
`jalp_structured_data_append`, `jalp_param_append`, or `strdup` of the
record text); every such failure site does `syslog` then `goto out`, which
destroys the event under construction and returns from the whole callback.
The same `goto out` is taken when the field walk meets the end-of-event
marker (line 144) and when the enqueue path times out on a full queue
(line 174).  Returns the final queue and the list of events pushed to the
queue by this callback, in push order. -/
def audit_event_handle (allocFails : Nat → Bool) (i : Nat)
    (q : EventQueue AppMetadata) :
    List RawRecord → EventQueue AppMetadata × List AppMetadata
  | [] => (q, [])
  | r :: rest =>
    if allocFails i then
      (q, [])
    else
      match normalizeFields r.fields with
      | none => (q, [])
      | some ps =>
        let ev : AppMetadata := ⟨"auditd", "audit", ps, r.rawText⟩
        let e := enqueue q ev
        if e.2.1 = EnqResult.Accepted then
          let t := audit_event_handle allocFails (i + 1) e.1 rest
          (t.1, ev :: t.2)
        else
          (e.1, [])

/-- Return value `CONFIG_TRUE` of libconfig's `config_read_file`. -/
def CONFIG_TRUE : Int := 1

/-- Return value `CONFIG_FALSE` of libconfig's `config_read_file`,
produced when the configuration file cannot be read or parsed. -/
def CONFIG_FALSE : Int := 0

/-- The three integer settings read by `config_load`, with their initial
values from the file-scope globals (lines 74-76): `print_stats = 0`,
`print_stats_freq = 60`, `queue_max_length = 10000`. -/
structure Settings where
  print_stats : Int
  print_stats_freq : Int
  queue_max_length : Int
deriving DecidableEq, Repr

/-- Initial values of the settings globals (lines 74-76). -/
def defaultSettings : Settings :=
  { print_stats := 0, print_stats_freq := 60, queue_max_length := 10000 }

/-- A configuration file as `config_read_file` exposes it: whether the read
succeeds, and the integer lookup table. -/
structure ConfigFile where
  readable : Bool
  lookupInt : String → Option Int

/-- libconfig's `config_lookup_int` as used on lines 212-214: on a present
key it stores the value into the destination variable; on an absent key it
leaves the destination untouched. -/
def config_lookup_int (c : ConfigFile) (key : String) (cur : Int) : Int :=
  match c.lookupInt key with
  | some v => v
  | none => cur

/-- `config_load` (lines 193-242, libconfig >= 1.4 branch): a null config
pointer returns `-1`; a failed `config_read_file` logs and jumps to `out`
returning the read result (`CONFIG_FALSE`) with the settings untouched; a
successful read performs the three `config_lookup_int` calls and returns
`CONFIG_TRUE`. -/
def config_load (cfg : Option ConfigFile) (s : Settings) : Int × Settings :=
  match cfg with
  | none => (-1, s)
  | some c =>
    if c.readable then
      (CONFIG_TRUE,
        { print_stats := config_lookup_int c "printstats" s.print_stats,
          print_stats_freq :=
            config_lookup_int c "printstatsfreq" s.print_stats_freq,
          queue_max_length :=
            config_lookup_int c "queuemaxlength" s.queue_max_length })
    else
      (CONFIG_FALSE, s)

/-- The check `main` applies to the result of `config_load`
(lines 379-383): the fatal path `goto out` is taken iff `rc < 0`. -/
def mainAbortsOnConfigLoad (rc : Int) : Bool := rc < 0

/-- Success return value `JAL_OK` of the JALP library calls. -/
def JAL_OK : Int := 0

/-- Record of what happened to one event popped by the dispatcher:
how many times it was handed to `jalp_audit`, and whether its owned
sub-structures (`message`, `param_list`, the `jalp_app_metadata` itself)
were released. -/
structure Dispatched (α : Type) where
  event : α
  submitCount : Nat
  destroyed : Bool
deriving DecidableEq, Repr

/-- The dispatcher loop `send_messages_to_local_store` (lines 309-334),
run over a snapshot of the queue contents (head first), with `sink e` the
return code of `jalp_audit` on event `e`.  Each iteration pops the head,
calls `jalp_audit` once, frees `message`, destroys `param_list` and the
`jalp_app_metadata` (unconditionally, before the return code is checked),
and then, if the return code is not `JAL_OK`, logs, sets
`status = RELOAD`, and returns from the thread function.  On an empty
queue the loop waits on `data_in_queue` (modelled as stopping with no
status change).  Returns the processed-event records in order and the
status write, if any. -/
def send_messages_to_local_store {α : Type} (sink : α → Int) :
    List α → List (Dispatched α) × Option Status
  | [] => ([], none)
  | x :: rest =>
    if sink x ≠ JAL_OK then
      ([⟨x, 1, true⟩], some Status.RELOAD)
    else
      let p := send_messages_to_local_store sink rest
      (⟨x, 1, true⟩ :: p.1, p.2)

/-- The control-plane state touched by the reload block of `main`
(lines 376-411): the run status, the JALP context (as a generation
counter, bumped by `jalp_context_destroy` + `jalp_context_create` +
`context_init`), the dispatcher thread generation (bumped by
`pthread_cancel` of the old `send_ls_thread` + `pthread_create` of the new
one), whether a stats thread runs, the settings globals, and the shared
`event_queue` (created once at line 345). -/
structure MainState (α : Type) where
  status : Status
  ctxGen : Nat
  dispatcherGen : Nat
  statsRunning : Bool
  settings : Settings
  queue : EventQueue α
deriving Repr

/-- The successful reload block of `main` (lines 376-411): reload the
config into the settings globals, tear down and rebuild the JALP context,
cancel the old stats/dispatcher threads and start new ones (a stats thread
iff `print_stats` is non-zero), and set `status = RUN`.  No statement in
the block reads or writes `event_queue`. -/
def reloadStep {α : Type} (cfg : ConfigFile) (st : MainState α) :
    MainState α :=
  let s1 := (config_load (some cfg) st.settings).2
  { st with
    settings := s1,
    ctxGen := st.ctxGen + 1,
    dispatcherGen := st.dispatcherGen + 1,
    statsRunning := s1.print_stats ≠ 0,
    status := Status.RUN }

/-- The state of `main`'s nested ingestion loop that matters once stdin is
at end-of-file: the run status, whether a JALP context exists, and the
variable `rc`. -/
structure LoopState where
  status : Status
  ctx : Bool
  rc : Int
deriving DecidableEq, Repr

/-- One execution of the inner do-while (lines 413-442) when stdin is at
end-of-file and no signal arrives: `select` reports fd 0 readable, `read`
returns 0, so `read_size = 0`, the code sets `rc = 0` and `break`s out of
the inner loop.  `status` is not modified. -/
def innerLoopEOF (st : LoopState) : LoopState :=
  { st with rc := 0 }

/-- The outer do-while of `main` (lines 373-443) when stdin is at
end-of-file and no signal arrives, with explicit fuel: the body first runs
the reload block when `status == RELOAD || !ctx` (which ends with
`status = RUN` and a live context), then runs the inner loop until it
breaks, and the loop repeats `while (status == RUN || status == RELOAD)`.
Returns `some rc` if the loop exited within the given fuel (after which
`main` proceeds to shutdown and returns `rc`), `none` if the fuel ran out
with the loop still running. -/
def mainLoopEOF : Nat → LoopState → Option Int
  | 0, _ => none
  | fuel + 1, st =>
    let st1 :=
      if st.status = Status.RELOAD ∨ !st.ctx then
        { st with status := Status.RUN, ctx := true }
      else
        st
    let st2 := innerLoopEOF st1
    if st2.status = Status.RUN ∨ st2.status = Status.RELOAD then
      mainLoopEOF fuel st2
    else
      some st2.rc

/-- Concrete raw record from the spec's scenario: fields
`[("type","SYSCALL"), ("uid","1000"), ("type","EOE")]`. -/
def recC1 : RawRecord :=
  { fields := [("type", "SYSCALL"), ("uid", "1000"), ("type", "EOE")],
    rawText := "type=SYSCALL uid=1000" }

/-- Concrete raw record that is a pure end-of-event boundary. -/
def recEOE : RawRecord :=
  { fields := [("type", "EOE")], rawText := "type=EOE" }

/-- Concrete ordinary raw record with one field. -/
def recUID : RawRecord :=
  { fields := [("uid", "1000")], rawText := "uid=1000" }

/-- Concrete operation sequence used to instantiate the queue-invariant
theorem. -/
def opsEx : List (Op Nat) := [Op.enq 5, Op.enq 7, Op.deq]

/-- Concrete sink used to instantiate the dispatcher theorem: submission
fails exactly on event `2`. -/
def sinkEx (n : Nat) : Int := if n = 2 then -1 else 0

/-- Concrete readable configuration file with every key absent. -/
def cfgAllAbsent : ConfigFile :=
  { readable := true, lookupInt := fun _ => none }

/-- Concrete settings differing from the built-in defaults. -/
def settingsEx : Settings :=
  { print_stats := 1, print_stats_freq := 2, queue_max_length := 3 }

section Theorems

/-- C1 (counterexample): feeding the single raw record with fields
`[("type","SYSCALL"), ("uid","1000"), ("type","EOE")]` to the normalizer
enqueues no event at all — not exactly one as claimed: reaching the
`("type","EOE")` field takes `goto out`, destroying the partially built
event together with the fields preceding the marker. -/
theorem c1_counterexample :
    (audit_event_handle (fun _ => false) 0 (initQueue AppMetadata 10000)
        [recC1]).2 = []
    ∧ (audit_event_handle (fun _ => false) 0 (initQueue AppMetadata 10000)
        [recC1]).2.length ≠ 1 := by
  decide

/-- C1 (amended): for the raw record with fields
`[("type","SYSCALL"), ("uid","1000"), ("type","EOE")]`, the normalizer
enqueues zero events and leaves the queue unchanged: the end-of-event
marker field discards the whole event, including the fields that precede
the marker. -/
theorem c1_eoe_record_discarded :
    audit_event_handle (fun _ => false) 0 (initQueue AppMetadata 10000)
        [recC1]
      = (initQueue AppMetadata 10000, []) := by
  decide

/-- C2 (code bug): when `config_read_file` fails, `config_load` returns
`CONFIG_FALSE = 0` with the settings untouched, and `main`'s fatal check
`rc < 0` does not fire — the process continues with the unloaded
configuration instead of aborting with a non-zero exit code. -/
theorem c2_config_load_failure_not_fatal :
    (config_load (some { readable := false, lookupInt := fun _ => none })
        defaultSettings).1 = CONFIG_FALSE
    ∧ mainAbortsOnConfigLoad
        (config_load (some { readable := false, lookupInt := fun _ => none })
          defaultSettings).1 = false
    ∧ (config_load (some { readable := false, lookupInt := fun _ => none })
        defaultSettings).2 = defaultSettings := by
  exact ⟨rfl, rfl, rfl⟩

/-- C3 (code bug): with stdin at end-of-file and status `RUN`, the `break`
taken on `read_size == 0` exits only the inner do-while; the outer
condition `status == RUN || status == RELOAD` still holds, so the
ingestion loop runs forever: for every fuel bound the loop has not
terminated, contradicting the claimed shutdown with exit code zero. -/
theorem c3_eof_loop_never_terminates (fuel : Nat) (st : LoopState)
    (h : st.status = Status.RUN) : mainLoopEOF fuel st = none := by
  induction fuel generalizing st with
  | zero => rfl
  | succ n ih =>
    by_cases hc : st.ctx
    · simp [mainLoopEOF, innerLoopEOF, h, hc]
      exact ih _ (by simp [h])
    · simp [mainLoopEOF, innerLoopEOF, h, hc]
      exact ih _ (by simp)

/-- C3 (witness): instantiation of the non-termination theorem at the
concrete start state `(RUN, context alive, rc = 1)` with fuel 100. -/
theorem c3_eof_loop_never_terminates_witness :
    mainLoopEOF 100 { status := Status.RUN, ctx := true, rc := 1 } = none :=
  c3_eof_loop_never_terminates 100
    { status := Status.RUN, ctx := true, rc := 1 } rfl

/-- C9 (counterexample): in a batch of two records where the first is a
pure end-of-event boundary, the second record is never normalized or
enqueued — yet the same second record fed on its own is enqueued.  A
per-record failure therefore does not abort that one record only. -/
theorem c9_counterexample :
    (audit_event_handle (fun _ => false) 0 (initQueue AppMetadata 10000)
        [recEOE, recUID]).2 = []
    ∧ (audit_event_handle (fun _ => false) 0 (initQueue AppMetadata 10000)
        [recUID]).2
      = [{ logger_name := "auditd", sd_id := "audit",
           param_list := [("uid", "1000")], message := recUID.rawText }] := by
  decide

/-- C9 (amended): any per-record failure — an allocation failure for the
record, the record being an end-of-event boundary, or the enqueue timing
out on a full queue — takes `goto out` and aborts the WHOLE callback: no
later record in the same batch is processed, nothing is enqueued, and the
queue is left unchanged. -/
theorem c9_failure_aborts_batch (af : Nat → Bool) (i : Nat)
    (q : EventQueue AppMetadata) (r : RawRecord) (rest : List RawRecord)
    (h : af i = true ∨ normalizeFields r.fields = none
        ∨ q.capacity ≤ q.items.length) :
    audit_event_handle af i q (r :: rest) = (q, []) := by
  by_cases ha : af i
  · simp [audit_event_handle, ha]
  · rcases h with h | h | h
    · exact absurd h ha
    · simp [audit_event_handle, ha, h]
    · cases hn : normalizeFields r.fields with
      | none => simp [audit_event_handle, ha, hn]
      | some ps =>
        have hfull :
            enqueue q
                ({ logger_name := "auditd", sd_id := "audit",
                   param_list := ps, message := r.rawText } : AppMetadata)
              = (q, EnqResult.Discarded, QUEUE_FULL_TIMEOUT) := by
          simp [enqueue, Nat.le_of_eq rfl]
          omega
        simp [audit_event_handle, ha, hn, hfull]

/-- C9 (witness): the amended theorem applied to the concrete batch whose
first record is a pure end-of-event boundary. -/
theorem c9_failure_aborts_batch_witness :
    audit_event_handle (fun _ => false) 0 (initQueue AppMetadata 10000)
        [recEOE, recUID]
      = (initQueue AppMetadata 10000, []) :=
  c9_failure_aborts_batch (fun _ => false) 0 (initQueue AppMetadata 10000)
    recEOE [recUID] (Or.inr (Or.inl (by decide)))

/-- C10: when `config_read_file` succeeds, an absent `printstats`,
`printstatsfreq`, or `queuemaxlength` key leaves the corresponding setting
at its previously effective value (never resetting it to the built-in
default), and the initial values of the globals are
`print_stats = 0`, `print_stats_freq = 60`, `queue_max_length = 10000`. -/
theorem c10_absent_keys_retained (c : ConfigFile) (s : Settings)
    (hr : c.readable = true) :
    defaultSettings
        = { print_stats := 0, print_stats_freq := 60,
            queue_max_length := 10000 }
    ∧ (c.lookupInt "printstats" = none →
        ((config_load (some c) s).2).print_stats = s.print_stats)
    ∧ (c.lookupInt "printstatsfreq" = none →
        ((config_load (some c) s).2).print_stats_freq = s.print_stats_freq)
    ∧ (c.lookupInt "queuemaxlength" = none →
        ((config_load (some c) s).2).queue_max_length
          = s.queue_max_length) := by
  refine ⟨rfl, ?_, ?_, ?_⟩ <;>
    · intro hk
      simp [config_load, config_lookup_int, hr, hk]

/-- C10 (witness): a readable config with every key absent, applied to
settings `(1, 2, 3)` that differ from the built-in defaults: all three
values are retained. -/
theorem c10_absent_keys_retained_witness :
    (config_load (some cfgAllAbsent) settingsEx).2.print_stats = 1
    ∧ (config_load (some cfgAllAbsent) settingsEx).2.print_stats_freq = 2
    ∧ (config_load (some cfgAllAbsent) settingsEx).2.queue_max_length = 3 :=
  ⟨(c10_absent_keys_retained cfgAllAbsent settingsEx rfl).2.1 rfl,
   (c10_absent_keys_retained cfgAllAbsent settingsEx rfl).2.2.1 rfl,
   (c10_absent_keys_retained cfgAllAbsent settingsEx rfl).2.2.2 rfl⟩

/-- C8: a successful reload cycle rebuilds the context, replaces the
dispatcher (and stats reporter) generation, reloads the settings and sets
status back to `RUN`, while leaving the `event_queue` — and hence every
event enqueued before the reload, in order — completely unchanged for the
new dispatcher to drain. -/
theorem c8_reload_preserves_queue {α : Type} (cfg : ConfigFile)
    (st : MainState α) :
    (reloadStep cfg st).queue = st.queue
    ∧ (reloadStep cfg st).queue.items = st.queue.items
    ∧ (reloadStep cfg st).status = Status.RUN
    ∧ (reloadStep cfg st).ctxGen = st.ctxGen + 1
    ∧ (reloadStep cfg st).dispatcherGen = st.dispatcherGen + 1 :=
  ⟨rfl, rfl, rfl, rfl, rfl⟩

/-- Splitting `enqueueAll` over an append of input lists. -/
theorem enqueueAll_append {α : Type} (q : EventQueue α) (xs ys : List α) :
    enqueueAll q (xs ++ ys)
      = ((enqueueAll (enqueueAll q xs).1 ys).1,
         (enqueueAll q xs).2 ++ (enqueueAll (enqueueAll q xs).1 ys).2) := by
  induction xs generalizing q with
  | nil => simp [enqueueAll]
  | cons x xs ih => simp [enqueueAll, ih]

/-- While there is room for the whole input, `enqueueAll` accepts every
event without waiting, appends them at the tail in order, and preserves
the capacity. -/
theorem enqueueAll_under_capacity {α : Type} (xs : List α)
    (q : EventQueue α) (h : q.items.length + xs.length ≤ q.capacity) :
    (enqueueAll q xs).1.items = q.items ++ xs
    ∧ (enqueueAll q xs).1.capacity = q.capacity
    ∧ (enqueueAll q xs).2
        = List.replicate xs.length (EnqResult.Accepted, 0) := by
  induction xs generalizing q with
  | nil => simp [enqueueAll]
  | cons x xs ih =>
    have hlt : ¬ q.items.length ≥ q.capacity := by
      simp at h ⊢
      omega
    have henq : enqueue q x
        = (EventQueue.mk (q.items ++ [x]) q.capacity
            (max (q.items.length + 1) q.maxLenSeen),
           EnqResult.Accepted, 0) := by
      simp [enqueue, hlt]
    have hih := ih (EventQueue.mk (q.items ++ [x]) q.capacity
        (max (q.items.length + 1) q.maxLenSeen))
      (by simp at h ⊢; omega)
    refine ⟨?_, ?_, ?_⟩ <;>
      simp [enqueueAll, henq, hih.1, hih.2.1, hih.2.2, List.replicate_succ]

/-- C4: starting from the fresh queue of capacity `C`, enqueueing `C + 1`
events with no consumer draining makes the first `C` calls return
`Accepted` with no wait, while the `(C+1)`th call waits the full
`QUEUE_FULL_TIMEOUT` seconds, returns `Discarded`, and drops that newest
event: the queue ends up holding exactly the first `C` events. -/
theorem c4_backpressure {α : Type} (C : Nat) (xs : List α)
    (hlen : xs.length = C + 1) :
    (enqueueAll (initQueue α C) xs).2
      = List.replicate C (EnqResult.Accepted, 0)
          ++ [(EnqResult.Discarded, QUEUE_FULL_TIMEOUT)]
    ∧ (enqueueAll (initQueue α C) xs).1.items = xs.take C := by
  have htl : (xs.take C).length = C := by
    simp [hlen]
  have hdl : (xs.drop C).length = 1 := by
    simp [hlen]
  obtain ⟨z, hz⟩ := List.length_eq_one.mp hdl
  have hsplit : xs = xs.take C ++ [z] := by
    rw [← hz]
    exact (List.take_append_drop C xs).symm
  have hfirst := enqueueAll_under_capacity (xs.take C) (initQueue α C)
    (by simp [initQueue, htl])
  have hqitems : (enqueueAll (initQueue α C) (xs.take C)).1.items
      = xs.take C := by
    simpa [initQueue] using hfirst.1
  have hfull : (enqueueAll (initQueue α C) (xs.take C)).1.items.length
      ≥ (enqueueAll (initQueue α C) (xs.take C)).1.capacity := by
    rw [hqitems, hfirst.2.1]
    simp [initQueue, htl]
  have hlast : enqueueAll (enqueueAll (initQueue α C) (xs.take C)).1 [z]
      = ((enqueueAll (initQueue α C) (xs.take C)).1,
         [(EnqResult.Discarded, QUEUE_FULL_TIMEOUT)]) := by
    simp [enqueueAll, enqueue, hfull]
  constructor
  · conv_lhs => rw [hsplit]
    rw [enqueueAll_append, hlast]
    simp [hfirst.2.2, htl]
  · conv_lhs => rw [hsplit]
    rw [enqueueAll_append, hlast]
    exact hqitems

/-- C4 (witness): capacity 2 and three events: results
`[Accepted, Accepted, Discarded]` with the discard after the full
5-second wait, and the queue holding the first two events. -/
theorem c4_backpressure_witness :
    (enqueueAll (initQueue Nat 2) [10, 20, 30]).2
      = List.replicate 2 (EnqResult.Accepted, 0)
          ++ [(EnqResult.Discarded, QUEUE_FULL_TIMEOUT)]
    ∧ (enqueueAll (initQueue Nat 2) [10, 20, 30]).1.items
        = [10, 20, 30].take 2 :=
  c4_backpressure 2 [10, 20, 30] rfl

/-- One operation never changes the queue's capacity. -/
theorem step_capacity {α : Type} (q : EventQueue α) (op : Op α) :
    (step q op).capacity = q.capacity := by
  cases op with
  | enq x =>
    simp only [step, enqueue]
    split <;> rfl
  | deq =>
    simp only [step, dequeue]
    cases q.items <;> rfl

/-- One operation never lowers the high-water mark. -/
theorem step_maxLenSeen_mono {α : Type} (q : EventQueue α) (op : Op α) :
    q.maxLenSeen ≤ (step q op).maxLenSeen := by
  cases op with
  | enq x =>
    simp only [step, enqueue]
    split
    · exact Nat.le_refl _
    · exact Nat.le_max_right _ _
  | deq =>
    simp only [step, dequeue]
    cases q.items <;> exact Nat.le_refl _

/-- The per-state queue invariant: the length is bounded by the capacity
and by the high-water mark. -/
def QInv {α : Type} (q : EventQueue α) : Prop :=
  q.items.length ≤ q.capacity ∧ q.items.length ≤ q.maxLenSeen

/-- One operation preserves the queue invariant. -/
theorem step_inv {α : Type} (q : EventQueue α) (op : Op α)
    (h : QInv q) : QInv (step q op) := by
  obtain ⟨hc, hm⟩ := h
  cases op with
  | enq x =>
    simp only [step, enqueue]
    split
    · exact ⟨hc, hm⟩
    · next hfull =>
      constructor
      · simpa using Nat.lt_of_not_le (fun hle => hfull (by simpa using hle))
      · simp [QInv]
  | deq =>
    simp only [step, dequeue]
    cases hq : q.items with
    | nil => exact ⟨hc, hm⟩
    | cons y ys =>
      constructor
      · have := hc
        rw [hq] at this
        simpa using Nat.le_of_succ_le this
      · have := hm
        rw [hq] at this
        simpa using Nat.le_of_succ_le this

/-- Peeling one operation off a `runOps` run. -/
theorem runOps_append {α : Type} (q : EventQueue α) (l1 l2 : List (Op α)) :
    runOps q (l1 ++ l2) = runOps (runOps q l1) l2 := by
  induction l1 generalizing q with
  | nil => rfl
  | cons op l1 ih => simp [runOps, ih]

/-- The observation after `n + 1` operations is reached from the
observation after `n` operations by at most one step. -/
theorem stateAt_succ {α : Type} (cap : Nat) (ops : List (Op α)) (n : Nat) :
    stateAt cap ops (n + 1) = stateAt cap ops n
    ∨ ∃ op, stateAt cap ops (n + 1) = step (stateAt cap ops n) op := by
  by_cases hn : n < ops.length
  · right
    refine ⟨ops.get ⟨n, hn⟩, ?_⟩
    have ht : ops.take (n + 1) = ops.take n ++ [ops.get ⟨n, hn⟩] := by
      rw [List.take_succ]
      simp [List.getElem?_eq_getElem hn]
    unfold stateAt
    rw [ht, runOps_append]
    rfl
  · left
    have hlen : ops.length ≤ n := Nat.le_of_not_lt hn
    simp [stateAt, List.take_of_length_le hlen,
      List.take_of_length_le (Nat.le_succ_of_le hlen)]

/-- Every observation point satisfies the queue invariant. -/
theorem stateAt_inv {α : Type} (cap : Nat) (ops : List (Op α)) (n : Nat) :
    QInv (stateAt cap ops n) := by
  induction n with
  | zero => exact ⟨Nat.zero_le _, Nat.le_refl _⟩
  | succ n ih =>
    rcases stateAt_succ cap ops n with h | ⟨op, h⟩
    · rw [h]; exact ih
    · rw [h]; exact step_inv _ op ih

/-- The high-water mark never decreases from one observation point to the
next. -/
theorem stateAt_maxLenSeen_succ {α : Type} (cap : Nat) (ops : List (Op α))
    (n : Nat) :
    (stateAt cap ops n).maxLenSeen ≤ (stateAt cap ops (n + 1)).maxLenSeen := by
  rcases stateAt_succ cap ops n with h | ⟨op, h⟩
  · rw [h]
  · rw [h]; exact step_maxLenSeen_mono _ op

/-- C5: along every sequence of enqueue/dequeue operations from the fresh
queue, the queue length stays between 0 and the capacity at every
observation point, the high-water mark is monotonically non-decreasing,
and the high-water mark dominates every queue length observed at or
before it. -/
theorem c5_queue_invariant {α : Type} (cap : Nat) (ops : List (Op α)) :
    (∀ n, (stateAt cap ops n).items.length ≤ (stateAt cap ops n).capacity)
    ∧ (∀ m n, m ≤ n →
        (stateAt cap ops m).maxLenSeen ≤ (stateAt cap ops n).maxLenSeen)
    ∧ (∀ m n, m ≤ n →
        (stateAt cap ops m).items.length
          ≤ (stateAt cap ops n).maxLenSeen) := by
  have hmono : Monotone (fun n => (stateAt cap ops n).maxLenSeen) :=
    monotone_nat_of_le_succ (fun n => stateAt_maxLenSeen_succ cap ops n)
  refine ⟨fun n => (stateAt_inv cap ops n).1, fun m n h => hmono h,
    fun m n h => ?_⟩
  exact Nat.le_trans (stateAt_inv cap ops m).2 (hmono h)

/-- C5 (witness): the invariant theorem instantiated on the concrete
operation sequence `[enq 5, enq 7, deq]` with capacity 2, at observation
points 2 and 3. -/
theorem c5_queue_invariant_witness :
    (stateAt 2 opsEx 2).items.length ≤ (stateAt 2 opsEx 2).capacity
    ∧ (stateAt 2 opsEx 2).maxLenSeen ≤ (stateAt 2 opsEx 3).maxLenSeen
    ∧ (stateAt 2 opsEx 2).items.length ≤ (stateAt 2 opsEx 3).maxLenSeen :=
  ⟨(c5_queue_invariant 2 opsEx).1 2,
   (c5_queue_invariant 2 opsEx).2.1 2 3 (by decide),
   (c5_queue_invariant 2 opsEx).2.2 2 3 (by decide)⟩

/-- FIFO bookkeeping for `runTrace`: the events popped so far followed by
the events still queued are exactly the initial contents followed by the
accepted events, in order. -/
theorem runTrace_fifo {α : Type} (ops : List (Op α)) (q : EventQueue α) :
    (runTrace q ops).2.2 ++ (runTrace q ops).1.items
      = q.items ++ (runTrace q ops).2.1 := by
  induction ops generalizing q with
  | nil => simp [runTrace]
  | cons op ops ih =>
    cases op with
    | enq x =>
      by_cases hfull : q.items.length ≥ q.capacity
      · have he : enqueue q x = (q, EnqResult.Discarded, QUEUE_FULL_TIMEOUT) := by
          simp [enqueue, hfull]
        simp [runTrace, he, ih]
      · have he : enqueue q x
            = (EventQueue.mk (q.items ++ [x]) q.capacity
                (max (q.items.length + 1) q.maxLenSeen),
               EnqResult.Accepted, 0) := by
          simp [enqueue, hfull]
        have := ih (EventQueue.mk (q.items ++ [x]) q.capacity
          (max (q.items.length + 1) q.maxLenSeen))
        simp only [runTrace, he] at *
        simp at this ⊢
        simp [this]
    | deq =>
      cases hq : q.items with
      | nil =>
        have hd : dequeue q = (q, none) := by
          simp [dequeue, hq]
        simp [runTrace, hd, ih, hq]
      | cons y ys =>
        have hd : dequeue q
            = (EventQueue.mk ys q.capacity q.maxLenSeen, some y) := by
          simp [dequeue, hq]
        have := ih (EventQueue.mk ys q.capacity q.maxLenSeen)
        simp only [runTrace, hd] at *
        simp [hq, this]

/-- C6: the queue is strict FIFO — over any operation sequence from the
fresh queue, the events dequeued (in pop order) followed by the events
still in the queue are exactly the accepted enqueued events in the
relative order they were enqueued. -/
theorem c6_fifo {α : Type} (cap : Nat) (ops : List (Op α)) :
    (runTrace (initQueue α cap) ops).2.2
        ++ (runTrace (initQueue α cap) ops).1.items
      = (runTrace (initQueue α cap) ops).2.1 := by
  have h := runTrace_fifo ops (initQueue α cap)
  simpa [initQueue] using h

/-- C7: over any queue snapshot, the dispatcher handles events strictly in
order from the head; every event it pops is handed to `jalp_audit` exactly
once and its owned sub-structures are destroyed whether the submission
succeeded or failed; the status is set to `RELOAD` iff some processed
submission failed; and a failing event is the last one processed — the
thread returns without retrying it. -/
theorem c7_dispatcher {α : Type} (sink : α → Int) (qs : List α) :
    ((send_messages_to_local_store sink qs).1.map (fun d => d.event)
        = qs.take (send_messages_to_local_store sink qs).1.length)
    ∧ (∀ d, d ∈ (send_messages_to_local_store sink qs).1 →
        d.submitCount = 1 ∧ d.destroyed = true)
    ∧ ((send_messages_to_local_store sink qs).2 = some Status.RELOAD
        ↔ ∃ d, d ∈ (send_messages_to_local_store sink qs).1
            ∧ sink d.event ≠ JAL_OK)
    ∧ (∀ d, d ∈ (send_messages_to_local_store sink qs).1 →
        sink d.event ≠ JAL_OK →
        (send_messages_to_local_store sink qs).1.getLast? = some d) := by
  induction qs with
  | nil =>
    refine ⟨rfl, ?_, ?_, ?_⟩
    · intro d hd
      simp [send_messages_to_local_store] at hd
    · simp [send_messages_to_local_store]
    · intro d hd
      simp [send_messages_to_local_store] at hd
  | cons x rest ih =>
    by_cases hx : sink x ≠ JAL_OK
    · have hf : send_messages_to_local_store sink (x :: rest)
          = ([⟨x, 1, true⟩], some Status.RELOAD) := by
        simp [send_messages_to_local_store, hx]
      refine ⟨?_, ?_, ?_, ?_⟩ <;> rw [hf]
      · rfl
      · intro d hd
        simp at hd
        simp [hd]
      · constructor
        · intro _
          exact ⟨⟨x, 1, true⟩, by simp, hx⟩
        · intro _
          rfl
      · intro d hd _
        simp at hd
        simp [hd]
    · have hok : sink x = JAL_OK := by
        by_contra hne
        exact hx hne
      have hf : send_messages_to_local_store sink (x :: rest)
          = (⟨x, 1, true⟩ :: (send_messages_to_local_store sink rest).1,
             (send_messages_to_local_store sink rest).2) := by
        simp [send_messages_to_local_store, hok]
      refine ⟨?_, ?_, ?_, ?_⟩ <;> rw [hf]
      · simp only [List.map_cons, List.length_cons, List.take_succ_cons]
        rw [ih.1]
      · intro d hd
        rcases List.mem_cons.mp hd with hd | hd
        · simp [hd]
        · exact ih.2.1 d hd
      · rw [ih.2.2.1]
        constructor
        · rintro ⟨d, hd, hfail⟩
          exact ⟨d, List.mem_cons_of_mem _ hd, hfail⟩
        · rintro ⟨d, hd, hfail⟩
          rcases List.mem_cons.mp hd with hd | hd
          · exact absurd (hd ▸ hfail) (by simp [hok])
          · exact ⟨d, hd, hfail⟩
      · intro d hd hfail
        rcases List.mem_cons.mp hd with hd | hd
        · exact absurd (hd ▸ hfail) (by simp [hok])
        · have hlast := ih.2.2.2 d hd hfail
          have hne : (send_messages_to_local_store sink rest).1 ≠ [] := by
            intro hnil
            rw [hnil] at hd
            simp at hd
          cases hrest : (send_messages_to_local_store sink rest).1 with
          | nil => exact absurd hrest hne
          | cons y ys =>
            rw [List.getLast?_cons_cons]
            rw [hrest] at hlast
            exact hlast

/-- C7 (witness): the dispatcher theorem instantiated with the sink that
fails exactly on event `2` and queue snapshot `[1, 2, 3]`: every processed
event was submitted once and destroyed, and the status was set to
`RELOAD`. -/
theorem c7_dispatcher_witness :
    (∀ d, d ∈ (send_messages_to_local_store sinkEx [1, 2, 3]).1 →
        d.submitCount = 1 ∧ d.destroyed = true)
    ∧ (send_messages_to_local_store sinkEx [1, 2, 3]).2
        = some Status.RELOAD :=
  ⟨(c7_dispatcher sinkEx [1, 2, 3]).2.1,
   (c7_dispatcher sinkEx [1, 2, 3]).2.2.1.mpr
     ⟨⟨2, 1, true⟩, by decide, by decide⟩⟩

end Theorems

end Jalauditd
